import Mathlib

/-!
Verification of the CAST cross-modal fusion codebase.

This file gives a shallow embedding, in Lean 4, of the parts of the
repository that the specification's claims are about:

* the composite-accuracy evaluator `action_accuracy`
  (engine_for_both_prompt.py / engine_for_prompt_OV.py),
* the composed-action decoder of `final_test` (engine_for_both_prompt.py),
* the batched per-verb noun-prototype construction
  (`composition_train_class_batch` / `validation_one_epoch`),
* the cosine-similarity logits with temperature 0.07,
* the B-CAST cross-modal cells and their class-token handling
  (models/audio_cast.py, models/beats_Bsquare.py),
* the per-layer gating of cross-modal cells in both `Block.forward`s,
* the audio-enabled vs non-audio classification head wiring of
  `STCrossTransformer.forward`,
* the input-shape checking order of `forward_features` / `PatchEmbed.forward`,
* the fp16-handling `LayerNorm.forward` dtype dispatch.

Tensors are modelled as lists of rows (or as bare shapes where a claim is
purely about shapes); machine floats are modelled as rationals, or as real
numbers where a square root is required; learned submodules whose numeric
content is irrelevant to a claim (projection weights, softmax kernels,
positional-bias additions) are abstracted as function parameters, while all
control flow, indexing, splitting/concatenation and arithmetic are
translated from the source.
-/

/-! ## C10: fp16-handling LayerNorm (audio_cast.py lines 56-64, beats_Bsquare.py lines 61-69)

`LayerNorm.forward` inspects `x.dtype`; it assigns `ret` only in the
`float16` and `float32` branches, and ends with `return ret.type(orig_type)`.
For any other dtype the local `ret` is never assigned and Python raises
`UnboundLocalError`.  We model the dtype dispatch exactly; the underlying
`nn.LayerNorm` computation and the dtype casts are abstract parameters. -/

inductive TorchDType where
  | f16 : TorchDType
  | f32 : TorchDType
  | bf16 : TorchDType
  | f64 : TorchDType
deriving DecidableEq, Repr

/-- The dtype dispatch of the fp16-handling `LayerNorm.forward`:
`orig_type = x.dtype`; if `float16` then `ret = super().forward(x)`;
elif `float32` then `ret = super().forward(x.type(torch.float32))`;
(no other branch assigns `ret`); `return ret.type(orig_type)`. -/
def layerNorm_forward {α : Type} (norm : α → α) (castTo : TorchDType → α → α)
    (dtype : TorchDType) (x : α) : Option (TorchDType × α) :=
  match dtype with
  | TorchDType.f16 => some (TorchDType.f16, castTo TorchDType.f16 (norm x))
  | TorchDType.f32 => some (TorchDType.f32, castTo TorchDType.f32 (norm (castTo TorchDType.f32 x)))
  | _ => none

/-- C10: the fp16-handling LayerNorm subclass is total exactly on float16 and
float32 inputs; on those it returns the normalized tensor cast back to the
input's original dtype, and on any other dtype (bfloat16, float64) the
forward fails because neither branch assigns the result variable. -/
theorem layerNorm_forward_total_iff_f16_or_f32 {α : Type} (norm : α → α)
    (castTo : TorchDType → α → α) (x : α) :
    (∀ dt : TorchDType,
      (layerNorm_forward norm castTo dt x).isSome ↔ (dt = TorchDType.f16 ∨ dt = TorchDType.f32))
    ∧ layerNorm_forward norm castTo TorchDType.f16 x
        = some (TorchDType.f16, castTo TorchDType.f16 (norm x))
    ∧ layerNorm_forward norm castTo TorchDType.f32 x
        = some (TorchDType.f32, castTo TorchDType.f32 (norm (castTo TorchDType.f32 x)))
    ∧ layerNorm_forward norm castTo TorchDType.bf16 x = none
    ∧ layerNorm_forward norm castTo TorchDType.f64 x = none := by
  refine ⟨fun dt => ?_, rfl, rfl, rfl, rfl⟩
  cases dt <;> simp [layerNorm_forward]

/-! ## C4: cosine-similarity logits are invariant to positive rescaling

Source (engine_for_both_prompt.py lines 26-28, engine_for_prompt_OV.py
lines 41-47): the pooled visual feature is divided by its Euclidean norm,
the prototypes likewise, and the logits are the dot products divided by the
temperature 0.07.  Floating-point arithmetic is idealized as real
arithmetic, so "equal up to floating-point tolerance" becomes exact
equality. -/

/-- Euclidean norm used by `tensor.norm(dim=-1)`. -/
noncomputable def l2norm {n : ℕ} (f : Fin n → ℝ) : ℝ :=
  Real.sqrt (∑ i, (f i) ^ 2)

/-- `x / x.norm(dim=-1, keepdim=True)`. -/
noncomputable def l2normalize {n : ℕ} (f : Fin n → ℝ) : Fin n → ℝ :=
  fun i => f i / l2norm f

/-- The similarity logits `(visual_normalized @ prototypes_normalized.t()) / 0.07`. -/
noncomputable def cosLogits {n m : ℕ} (f : Fin n → ℝ) (protos : Fin m → Fin n → ℝ) :
    Fin m → ℝ :=
  fun j => (∑ i, l2normalize f i * l2normalize (protos j) i) / 0.07

theorem l2norm_smul {n : ℕ} (c : ℝ) (hc : 0 ≤ c) (f : Fin n → ℝ) :
    l2norm (fun i => c * f i) = c * l2norm f := by
  unfold l2norm
  have h : (∑ i, (c * f i) ^ 2) = c ^ 2 * ∑ i, (f i) ^ 2 := by
    rw [Finset.mul_sum]; exact Finset.sum_congr rfl fun i _ => by ring
  rw [h, Real.sqrt_mul (by positivity), Real.sqrt_sq hc]

/-- C4: for every pooled feature with nonzero norm, every prototype matrix
and every positive scalar `c`, the cosine-similarity logits computed from
`c * f` equal the logits computed from `f`. -/
theorem cosLogits_scale_invariant {n m : ℕ} (f : Fin n → ℝ)
    (protos : Fin m → Fin n → ℝ) (c : ℝ) (hc : 0 < c) (hf : l2norm f ≠ 0) :
    cosLogits (fun i => c * f i) protos = cosLogits f protos := by
  have hnorm : l2norm (fun i => c * f i) = c * l2norm f := l2norm_smul c hc.le f
  funext j
  unfold cosLogits
  congr 1
  refine Finset.sum_congr rfl fun i _ => ?_
  unfold l2normalize
  rw [hnorm]
  congr 1
  field_simp
  ring

/-- Witness for C4 at a concrete input: the all-ones feature in dimension 1,
scale 2, a constant prototype. -/
theorem cosLogits_scale_invariant_witness :
    (0:ℝ) < 2 ∧ l2norm (fun _ : Fin 1 => (1:ℝ)) ≠ 0 ∧
      cosLogits (fun i : Fin 1 => 2 * (fun _ : Fin 1 => (1:ℝ)) i)
          (fun _ : Fin 1 => fun _ : Fin 1 => (1:ℝ))
        = cosLogits (fun _ : Fin 1 => (1:ℝ)) (fun _ : Fin 1 => fun _ : Fin 1 => (1:ℝ)) := by
  have h1 : l2norm (fun _ : Fin 1 => (1:ℝ)) = 1 := by
    unfold l2norm; simp
  exact ⟨by norm_num, by rw [h1]; norm_num,
    cosLogits_scale_invariant _ _ 2 (by norm_num) (by rw [h1]; norm_num)⟩

/-! ## C6: class-token handling of the directed cross-attentions

Sources: audio_cast.py `CrossAttentionT2S.t2s_cross_attn` (lines 350-417)
splits `s_x_cls, s_x_pat = s_x[0], s_x[1:]`, computes queries from
`s_x_pat` and keys/values from the temporal stream `t_x`, and returns
`torch.cat([s_x_cls.unsqueeze(0), s_x_pat], dim=0)`;
`CrossAttentionS2T.s2t_cross_attn` (lines 227-289) computes keys/values from
`s_x_pat = s_x[1:]` only; beats_Bsquare.py `CrossAttentionAudio2S` (lines
290-335) splits the class token the same way, `CrossAttentionS2Audio`
(lines 208-253) reads `s_x[1:]` as keys/values, and
`CrossAttentionT2Audio` / `CrossAttentionAudio2T` (lines 372-416, 453-494)
pass the whole audio stream with no row excluded.

The spatial stream is the axis-0 list of token rows.  The positional-bias
reshape pipelines and the projection/softmax attention kernel are abstract
parameters (`posPat`, `posCtx`, `attend`): `attend q kv` stands for
`proj(softmax(q Wq (kv Wk)^T) (kv Wv))`, a function of the query rows and
the key/value rows only. -/

/-- audio_cast `CrossAttentionT2S.t2s_cross_attn`: split off the class row,
attend with queries from the patch rows and keys/values from `t_x`,
concatenate the class row back. -/
def t2s_cross_attn {V : Type} (posPat posCtx : List V → List V)
    (attend : List V → List V → List V) (s_x t_x : List V) : List V :=
  let s_x_cls := s_x.take 1
  let s_x_pat := posPat (s_x.drop 1)
  s_x_cls ++ attend s_x_pat (posCtx t_x)

/-- audio_cast `CrossAttentionS2T.s2t_cross_attn`: queries from `t_x`,
keys/values from the patch rows `s_x[1:]` only. -/
def s2t_cross_attn {V : Type} (posPat posCtx : List V → List V)
    (attend : List V → List V → List V) (s_x t_x : List V) : List V :=
  attend (posCtx t_x) (posPat (s_x.drop 1))

/-- beats_Bsquare `CrossAttentionAudio2S.audio2s_cross_attn`: split off the
class row, queries from the patch rows, keys/values from the full audio
stream, concatenate the class row back. -/
def audio2s_cross_attn {V : Type} (posPat posA : List V → List V)
    (attend : List V → List V → List V) (s_x audio : List V) : List V :=
  let s_x_cls := s_x.take 1
  s_x_cls ++ attend (posPat (s_x.drop 1)) (posA audio)

/-- beats_Bsquare `CrossAttentionS2Audio.s2audio_cross_attn`: queries from
the full audio stream, keys/values from the patch rows `s_x[1:]`. -/
def s2audio_cross_attn {V : Type} (posPat posA : List V → List V)
    (attend : List V → List V → List V) (s_x audio : List V) : List V :=
  attend (posA audio) (posPat (s_x.drop 1))

/-- beats_Bsquare `CrossAttentionT2Audio.t2audio_cross_attn`: queries from
the full audio stream, keys/values from the full temporal stream. -/
def t2audio_cross_attn {V : Type} (posT posA : List V → List V)
    (attend : List V → List V → List V) (t_x audio : List V) : List V :=
  attend (posA audio) (posT t_x)

/-- beats_Bsquare `CrossAttentionAudio2T.audio2t_cross_attn`: queries from
the full temporal stream, keys/values from the full audio stream. -/
def audio2t_cross_attn {V : Type} (posT posA : List V → List V)
    (attend : List V → List V → List V) (t_x audio : List V) : List V :=
  attend (posT t_x) (posA audio)

/-- C6: every directed cross-attention writing into the spatial stream
returns the input class-token row unchanged at position 0 and attends only
over the patch rows (the result rows below the class token do not depend on
the class row); every cross-attention reading from the spatial stream uses
only the patch rows as keys/values (its output is independent of the class
row); the audio/text stream is passed to its attentions in full. -/
theorem cross_attn_class_token_frame {V : Type} :
    ∀ (posPat posCtx posA posT : List V → List V)
      (attend : List V → List V → List V) (c c' : V) (pat t_x audio : List V),
      (t2s_cross_attn posPat posCtx attend (c :: pat) t_x).head? = some c
      ∧ (t2s_cross_attn posPat posCtx attend (c :: pat) t_x).tail
          = attend (posPat pat) (posCtx t_x)
      ∧ s2t_cross_attn posPat posCtx attend (c :: pat) t_x
          = s2t_cross_attn posPat posCtx attend (c' :: pat) t_x
      ∧ (audio2s_cross_attn posPat posA attend (c :: pat) audio).head? = some c
      ∧ (audio2s_cross_attn posPat posA attend (c :: pat) audio).tail
          = attend (posPat pat) (posA audio)
      ∧ s2audio_cross_attn posPat posA attend (c :: pat) audio
          = s2audio_cross_attn posPat posA attend (c' :: pat) audio
      ∧ t2audio_cross_attn posT posA attend t_x audio = attend (posA audio) (posT t_x)
      ∧ audio2t_cross_attn posT posA attend t_x audio = attend (posT t_x) (posA audio) := by
  intro posPat posCtx posA posT attend c c' pat t_x audio
  refine ⟨rfl, rfl, rfl, rfl, rfl, rfl, rfl, rfl⟩

/-! ## C7: per-layer gating of the cross-modal cells

audio_cast.py `Block.forward` (lines 502-541): the cross stage (lines
520-527) runs iff `num_layer >= CA and num_layer >= late_fusion`.
beats_Bsquare.py `Block.forward` (lines 757-823): the spatial-temporal
B-CAST runs iff `not CA_eq or num_layer in CA` (line 794), and the two
audio B-CASTs run iff `num_layer in CA` (line 796).  The self-attention,
cross and feed-forward sublayers are abstract stage functions; only the
gating conditions and the dataflow between stages are from the source. -/

structure ACStages (V W : Type) where
  mhsaS : V → V
  mhsaT : W → W
  crossStage : V → W → V × W
  ffnS : V → V
  ffnT : W → W

/-- audio_cast `Block.forward`: MHSA on both streams, then the gated cross
stage, then the FFN stage. -/
def ac_block_forward {V W : Type} (num_layer CA late_fusion : ℕ)
    (st : ACStages V W) (s_x : V) (t_x : W) : V × W :=
  let s1 := st.mhsaS s_x
  let t1 := st.mhsaT t_x
  let c := if CA ≤ num_layer ∧ late_fusion ≤ num_layer then st.crossStage s1 t1 else (s1, t1)
  (st.ffnS c.1, st.ffnT c.2)

structure BStages (V W X : Type) where
  mhsaS : V → V
  mhsaT : W → W
  mhsaText : X → X
  stCell : V → W → V × W
  sTextCell : V → X → V × X
  tTextCell : W → X → W × X
  ffnS : V → V
  ffnT : W → W
  ffnText : X → X

/-- beats_Bsquare `Block.forward`: MHSA on all three streams, then the
spatial-temporal cell gated by `not CA_eq or num_layer in CA`, then the two
audio cells gated by `num_layer in CA`, then the FFN stage. -/
def beats_block_forward {V W X : Type} (num_layer : ℕ) (CA : List ℕ) (CA_eq : Bool)
    (st : BStages V W X) (s_x : V) (t_x : W) (text : X) : V × W × X :=
  let text1 := st.mhsaText text
  let s1 := st.mhsaS s_x
  let t1 := st.mhsaT t_x
  let p := if CA_eq = false ∨ num_layer ∈ CA then st.stCell s1 t1 else (s1, t1)
  let q := if num_layer ∈ CA then st.sTextCell p.1 text1 else (p.1, text1)
  let r := if num_layer ∈ CA then st.tTextCell p.2 q.2 else (p.2, q.2)
  (st.ffnS q.1, st.ffnT r.1, st.ffnText r.2)

/-- C7: the cross-modal cells fire exactly when the layer's static
configuration says so, and a non-firing fusion stage leaves both streams of
that modality pair untouched: in audio_cast the cell fires iff
`CA ≤ i ∧ late_fusion ≤ i`; in beats_Bsquare the spatial-temporal cell
fires at every layer when `CA_eq` is false and only at layers in `CA` when
it is true, and the two audio cells fire only at layers in `CA`. -/
theorem block_cross_gating {V W X : Type} :
    ∀ (i CA lf : ℕ) (stA : ACStages V W) (s : V) (t : W)
      (CAl : List ℕ) (CA_eq : Bool) (stB : BStages V W X) (sb : V) (tb : W) (tx : X),
      (¬(CA ≤ i ∧ lf ≤ i) →
        ac_block_forward i CA lf stA s t = (stA.ffnS (stA.mhsaS s), stA.ffnT (stA.mhsaT t)))
      ∧ ((CA ≤ i ∧ lf ≤ i) →
        ac_block_forward i CA lf stA s t =
          (stA.ffnS (stA.crossStage (stA.mhsaS s) (stA.mhsaT t)).1,
           stA.ffnT (stA.crossStage (stA.mhsaS s) (stA.mhsaT t)).2))
      ∧ (CA_eq = true → i ∉ CAl →
        beats_block_forward i CAl CA_eq stB sb tb tx =
          (stB.ffnS (stB.mhsaS sb), stB.ffnT (stB.mhsaT tb), stB.ffnText (stB.mhsaText tx)))
      ∧ (CA_eq = false → i ∉ CAl →
        beats_block_forward i CAl CA_eq stB sb tb tx =
          (stB.ffnS (stB.stCell (stB.mhsaS sb) (stB.mhsaT tb)).1,
           stB.ffnT (stB.stCell (stB.mhsaS sb) (stB.mhsaT tb)).2,
           stB.ffnText (stB.mhsaText tx)))
      ∧ (i ∈ CAl →
        beats_block_forward i CAl CA_eq stB sb tb tx =
          (let p := stB.stCell (stB.mhsaS sb) (stB.mhsaT tb)
           let q := stB.sTextCell p.1 (stB.mhsaText tx)
           let r := stB.tTextCell p.2 q.2
           (stB.ffnS q.1, stB.ffnT r.1, stB.ffnText r.2))) := by
  intro i CA lf stA s t CAl CA_eq stB sb tb tx
  refine ⟨fun h => ?_, fun h => ?_, fun he hn => ?_, fun he hn => ?_, fun hm => ?_⟩
  · simp [ac_block_forward, h]
  · simp [ac_block_forward, h]
  · simp [beats_block_forward, he, hn]
  · simp [beats_block_forward, he, hn]
  · simp [beats_block_forward, hm]

/-- Witness for C7: at layer 0 with thresholds CA = 1, late_fusion = 2 the
audio_cast cross stage does not fire, and at layer 3 it does. -/
theorem block_cross_gating_witness :
    ¬((1:ℕ) ≤ 0 ∧ (2:ℕ) ≤ 0)
    ∧ ac_block_forward 0 1 2 (ACStages.mk id id (fun v w => (v + 1, w + 1)) id id)
        (5:ℕ) (7:ℕ) = (5, 7)
    ∧ ((1:ℕ) ≤ 3 ∧ (2:ℕ) ≤ 3)
    ∧ ac_block_forward 3 1 2 (ACStages.mk id id (fun v w => (v + 1, w + 1)) id id)
        (5:ℕ) (7:ℕ) = (6, 8) := by
  have h := block_cross_gating (X := ℕ) 0 1 2
    (ACStages.mk id id (fun v w => (v + 1, w + 1)) id id) 5 7
    [] false (BStages.mk id id id (fun a b => (a, b)) (fun a b => (a, b))
      (fun a b => (a, b)) id id id) 5 7 0
  have h3 := block_cross_gating (X := ℕ) 3 1 2
    (ACStages.mk id id (fun v w => (v + 1, w + 1)) id id) 5 7
    [] false (BStages.mk id id id (fun a b => (a, b)) (fun a b => (a, b))
      (fun a b => (a, b)) id id id) 5 7 0
  exact ⟨by decide, h.1 (by decide), by decide, h3.2.1 (by decide)⟩

/-! ## C8: audio-enabled forward with spec=None vs the non-audio construction

Source: audio_cast.py `STCrossTransformer.forward` (lines 829-866).
`forward_features` (lines 743-784) never reads `audio_enabled`; with
`spec=None` it selects the even video frames for the spatial stream either
way (lines 745-748).  The classification stage, however, branches on
`audio_enabled`: in composition mode the audio-enabled path feeds BOTH
heads the combined feature
`noun_last_Adapter(s_x) + verb_last_Adapter(t_x)` (lines 830-840) while the
non-audio path feeds `head_noun(s_x)` and `head_verb(t_x)` separately
(lines 841-849); in single-head mode the audio-enabled path uses the sum
(lines 851-858) while the non-audio path uses the sum divided by 2
(lines 859-866).  Adapters and heads are abstract parameter functions;
dropout is the identity (evaluation mode). -/

/-- The spatial-stream source selection of `forward_features` (lines
745-748): with a spectrogram, its even frames; with `spec=None`, the even
video frames.  `forward_features` has no dependence on `audio_enabled`. -/
def spatial_stream_source {S : Type} (spec : Option S) (x : S) (evenFrames : S → S) : S :=
  match spec with
  | some sp => evenFrames sp
  | none => evenFrames x

structure CompoHeadParams (V : Type) where
  noun_last_Adapter : V → V
  verb_last_Adapter : V → V
  head_noun : V → V
  head_verb : V → V

/-- Composition head, `audio_enabled=True` (lines 830-840): both heads
consume `noun_last_Adapter(s_x) + verb_last_Adapter(t_x)`. -/
def compo_forward_audio {V : Type} [Add V] (p : CompoHeadParams V) (features : V × V) :
    V × V :=
  let x := p.noun_last_Adapter features.1 + p.verb_last_Adapter features.2
  (p.head_noun x, p.head_verb x)

/-- Composition head, `audio_enabled=False` (lines 841-849): `head_noun`
consumes the pooled spatial feature and `head_verb` the pooled temporal
feature, with no adapters. -/
def compo_forward_noaudio {V : Type} (p : CompoHeadParams V) (features : V × V) : V × V :=
  (p.head_noun features.1, p.head_verb features.2)

structure SingleHeadParams (V : Type) where
  noun_last_Adapter : V → V
  verb_last_Adapter : V → V
  head : V → V

/-- Single head, `audio_enabled=True` (lines 851-858): the head consumes the
adapter sum. -/
def single_forward_audio {V : Type} [Add V] (p : SingleHeadParams V) (features : V × V) : V :=
  p.head (p.noun_last_Adapter features.1 + p.verb_last_Adapter features.2)

/-- Single head, `audio_enabled=False` (lines 859-866): the head consumes
the adapter sum divided by 2. -/
def single_forward_noaudio (p : SingleHeadParams ℚ) (features : ℚ × ℚ) : ℚ :=
  p.head ((p.noun_last_Adapter features.1 + p.verb_last_Adapter features.2) / 2)

/-- Counterexample to C8 as stated: with identity adapters and identity
heads and pooled features (1, 0), the audio-enabled composition forward and
the non-audio composition forward of the same parameters on the same input
disagree. -/
theorem forward_spec_none_not_identical :
    compo_forward_audio (CompoHeadParams.mk id id id id) ((1:ℤ), 0)
      ≠ compo_forward_noaudio (CompoHeadParams.mk id id id id) ((1:ℤ), 0) := by
  simp [compo_forward_audio, compo_forward_noaudio, Prod.ext_iff]

/-- C8 amended: with `spec=None` the feature path is shared (it selects the
even video frames independently of `audio_enabled`), but the classifier
stage is wired differently — the audio-enabled composition head feeds both
heads the combined adapter sum while the non-audio head feeds them the two
pooled features separately, and the single-head paths differ by the final
division by 2 — so the two forward passes differ in general. -/
theorem forward_spec_none_head_divergence :
    (∀ (S : Type) (x : S) (evenFrames : S → S),
      spatial_stream_source none x evenFrames = evenFrames x)
    ∧ (∀ (V : Type) (inst : Add V) (p : CompoHeadParams V) (f : V × V),
      compo_forward_audio p f
        = (p.head_noun (p.noun_last_Adapter f.1 + p.verb_last_Adapter f.2),
           p.head_verb (p.noun_last_Adapter f.1 + p.verb_last_Adapter f.2))
      ∧ compo_forward_noaudio p f = (p.head_noun f.1, p.head_verb f.2))
    ∧ (∀ (V : Type) (inst : Add V) (p : CompoHeadParams V) (f : V × V),
      compo_forward_audio p f = compo_forward_noaudio p f ↔
        (p.head_noun (p.noun_last_Adapter f.1 + p.verb_last_Adapter f.2) = p.head_noun f.1
         ∧ p.head_verb (p.noun_last_Adapter f.1 + p.verb_last_Adapter f.2) = p.head_verb f.2))
    ∧ (∃ (p : CompoHeadParams ℤ) (f : ℤ × ℤ),
      compo_forward_audio p f ≠ compo_forward_noaudio p f)
    ∧ (∃ (p : SingleHeadParams ℚ) (f : ℚ × ℚ),
      single_forward_audio p f ≠ single_forward_noaudio p f) := by
  refine ⟨fun S x ev => rfl, fun V inst p f => ⟨rfl, rfl⟩,
    fun V inst p f => Prod.ext_iff, ?_, ?_⟩
  · refine ⟨CompoHeadParams.mk id id id id, ((1:ℤ), 0), ?_⟩
    simp [compo_forward_audio, compo_forward_noaudio, Prod.ext_iff]
  · refine ⟨SingleHeadParams.mk id id id, ((1:ℚ), 1), ?_⟩
    simp [single_forward_audio, single_forward_noaudio]

/-! ## C9: shape checking order of `forward_features`

Source: audio_cast.py.  `PatchEmbed.forward` (lines 86-92) asserts
`H == img_size[0] and W == img_size[1]` before its own 3D convolution.
But `STCrossTransformer.forward_features` (lines 743-762) runs the spatial
path FIRST: it slices the even frames, applies the `clip_conv1` strided
convolution to the raw frames (line 753), prepends the class token and adds
`clip_text_positional_embedding` (line 757, a broadcast that itself fails
when the token count `grid+1` differs from `audio_patch+1`), and only then
calls `self.patch_embed(x)` (line 762), whose assert fires on a mismatched
spatial size.  The transformer blocks run only after that (line 775).

We model the execution as a trace over token-grid arithmetic: a 16-stride
convolution on an `H×W` frame yields `(H/16)*(W/16)` patches (valid for
`16 ≤ H, W`); each field records whether that computation ran before the
recorded failure. -/

inductive FFail where
  | broadcastMismatch : FFail
  | shapeAssert : FFail
deriving DecidableEq, Repr

structure FFTrace where
  spatialConvRan : Bool
  patchProjRan : Bool
  blocksRan : Bool
  failure : Option FFail
deriving DecidableEq, Repr

/-- Execution-order trace of `forward_features` with `spec=None` on a clip
with spatial size `H×W`: `clip_conv1` runs first; the positional-embedding
add fails when the patch count disagrees with `audio_patch`; then
`PatchEmbed.forward` asserts the configured image size before its own
projection; the blocks run last. -/
def forward_features_shape_trace (imgH imgW patch audio_patch H W : ℕ) : FFTrace :=
  let grid := (H / patch) * (W / patch)
  if grid + 1 ≠ audio_patch + 1 then
    FFTrace.mk true false false (some FFail.broadcastMismatch)
  else if ¬(H = imgH ∧ W = imgW) then
    FFTrace.mk true false false (some FFail.shapeAssert)
  else
    FFTrace.mk true true true none

/-- The property C9 asserts of a failing run: the failure happens before
any compute — no layer executes AND no tensor computation on the
mismatched input happens first. -/
def failsBeforeAnyCompute (tr : FFTrace) : Prop :=
  tr.failure.isSome ∧ tr.spatialConvRan = false ∧ tr.patchProjRan = false
    ∧ tr.blocksRan = false

/-- Counterexample to C9 as stated: a 112×448 input (whose 7×28 = 196 patch
grid passes the positional-embedding broadcast) reaches the `PatchEmbed`
shape assert with the default 224×224 / patch-16 / 196-audio-patch
configuration, but the spatial-path convolution has already run on the
mismatched input, so the failure is not "before any compute". -/
theorem shape_mismatch_not_before_any_compute :
    (forward_features_shape_trace 224 224 16 196 112 448).failure = some FFail.shapeAssert
    ∧ ¬ failsBeforeAnyCompute (forward_features_shape_trace 224 224 16 196 112 448) := by
  constructor
  · decide
  · intro h
    have := h.2.1
    revert this
    decide

/-- C9 amended: for every input whose spatial size disagrees with the
configured 224×224 grid (and is at least one 16-pixel patch in each
dimension), the forward fails — with the `PatchEmbed` shape assert, or
already with the positional-embedding broadcast — before any transformer
layer executes and before the temporal-stream patch projection runs, but
AFTER the spatial-path convolution has run on the mismatched input. -/
theorem shape_mismatch_fails_before_blocks (H W : ℕ) (hH : 16 ≤ H) (hW : 16 ≤ W)
    (hmm : ¬(H = 224 ∧ W = 224)) :
    (forward_features_shape_trace 224 224 16 196 H W).failure.isSome
    ∧ (forward_features_shape_trace 224 224 16 196 H W).blocksRan = false
    ∧ (forward_features_shape_trace 224 224 16 196 H W).patchProjRan = false
    ∧ (forward_features_shape_trace 224 224 16 196 H W).spatialConvRan = true := by
  unfold forward_features_shape_trace
  by_cases hg : (H / 16) * (W / 16) + 1 ≠ 196 + 1
  · simp [hg]
  · simp [hg, hmm]

/-- Witness for the amended C9 at the concrete mismatched input 112×448. -/
theorem shape_mismatch_fails_before_blocks_witness :
    ((16 ≤ 112 ∧ 16 ≤ 448) ∧ ¬(112 = 224 ∧ 448 = 224))
    ∧ ((forward_features_shape_trace 224 224 16 196 112 448).failure.isSome
      ∧ (forward_features_shape_trace 224 224 16 196 112 448).blocksRan = false
      ∧ (forward_features_shape_trace 224 224 16 196 112 448).patchProjRan = false
      ∧ (forward_features_shape_trace 224 224 16 196 112 448).spatialConvRan = true) := by
  exact ⟨⟨⟨by decide, by decide⟩, by decide⟩,
    shape_mismatch_fails_before_blocks 112 448 (by decide) (by decide) (by decide)⟩

/-! ## C1: the composite-accuracy evaluator `action_accuracy`

Source (engine_for_both_prompt.py lines 455-464, and identically
engine_for_prompt_OV.py lines 517-526):

```
maxk = max(topk)
batch_size = target.size(0)
_, pred_noun = output_noun.topk(maxk, 1, True, True)
_, pred_verb = output_verb.topk(maxk, 1, True, True)
pred = (pred_verb * 1000) + pred_noun
pred = pred.t()
correct = pred.eq(target.reshape(1, -1).expand_as(pred))
return [correct[:k].reshape(-1).float().sum(0) * 100. / batch_size for k in topk]
```

`pred_verb` and `pred_noun` are both `[B, maxk]`, so
`pred_verb * 1000 + pred_noun` is ELEMENTWISE: the rank-j verb index is
paired with the rank-j noun index, giving `maxk` candidates per row (the
diagonal of the Cartesian product), not `k*k` candidates.  Logits are
modelled generically over a linear order; `topkIdx` reproduces
`torch.topk(..., largest=True, sorted=True)` index semantics with
lower-index tie-breaking. -/

/-- Indices of the `k` largest entries of a row, in descending value order
(ties broken toward the lower index), as returned by
`tensor.topk(k, dim, largest=True, sorted=True)` on one row. -/
def topkIdx {α : Type} [LinearOrder α] [Zero α] (k : ℕ) (row : List α) : List ℕ :=
  ((List.range row.length).insertionSort fun i j =>
      row.getD j 0 < row.getD i 0 ∨ (row.getD i 0 = row.getD j 0 ∧ i ≤ j)).take k

/-- `action_accuracy`: takes top-`maxk` noun and verb indices per row,
composes them rank-by-rank as `verb * 1000 + noun`, and for each requested
`k` sums the float-cast equality indicators of the first `k` ranks against
the broadcast target and scales by `100 / batch_size`. -/
def action_accuracy {α : Type} [LinearOrder α] [Zero α]
    (output_noun output_verb : List (List α)) (target : List ℕ) (topk : List ℕ) : List ℚ :=
  let maxk := topk.foldr max 0
  let batch_size := target.length
  let pred := List.zipWith (fun nrow vrow =>
      List.zipWith (fun v n => v * 1000 + n) (topkIdx maxk vrow) (topkIdx maxk nrow))
    output_noun output_verb
  topk.map fun k =>
    (List.zipWith (fun prow t => (((prow.take k).count t : ℕ) : ℚ)) pred target).sum
      * 100 / batch_size

/-- The evaluator C1 describes (following the spec's words): top-`k` noun
and verb indices per row, the full `k*k` Cartesian outer combination
`verb * 1000 + noun`, and the fraction of rows whose target matches any of
those candidates. -/
def action_accuracy_cartesian {α : Type} [LinearOrder α] [Zero α]
    (output_noun output_verb : List (List α)) (target : List ℕ) (topk : List ℕ) : List ℚ :=
  topk.map fun k =>
    (List.zipWith (fun rows t =>
        if ∃ v ∈ topkIdx k rows.2, ∃ nn ∈ topkIdx k rows.1, v * 1000 + nn = t
        then (1:ℚ) else 0)
      (List.zipWith (fun nrow vrow => (nrow, vrow)) output_noun output_verb) target).sum
      * 100 / target.length

/-- Counterexample to C1 as stated: one row, noun logits `[10, 5]`
(top-2 noun indices `[0, 1]`), verb logits `[5, 10]` (top-2 verb indices
`[1, 0]`), target `1001 = 1*1000 + 1`.  The Cartesian outer combination of
the top-2 sets contains `1001`, so the claimed evaluator reports 100% at
k = 2, but `action_accuracy` composes rank-by-rank (candidates `1000` and
`1`) and reports 0%. -/
theorem action_accuracy_not_cartesian :
    action_accuracy [[(10:ℤ), 5]] [[(5:ℤ), 10]] [1001] [2] = [0]
    ∧ action_accuracy_cartesian [[(10:ℤ), 5]] [[(5:ℤ), 10]] [1001] [2] = [100] := by
  have hn : topkIdx 2 [(10:ℤ), 5] = [0, 1] := by decide
  have hv : topkIdx 2 [(5:ℤ), 10] = [1, 0] := by decide
  constructor
  · simp [action_accuracy, hn, hv]
  · rw [action_accuracy_cartesian]
    simp only [List.zipWith, List.map, hn, hv]
    norm_num

/-- The amended evaluator semantics: `action_accuracy` composes the rank-j
verb with the rank-j noun and reports, for each requested `k`, `100/B`
times the number of rows whose target equals one of the first `k` rank-wise
compositions. -/
def action_accuracy_rankwise {α : Type} [LinearOrder α] [Zero α]
    (output_noun output_verb : List (List α)) (target : List ℕ) (topk : List ℕ) : List ℚ :=
  let maxk := topk.foldr max 0
  let pred := List.zipWith (fun nrow vrow =>
      List.zipWith (fun v n => v * 1000 + n) (topkIdx maxk vrow) (topkIdx maxk nrow))
    output_noun output_verb
  topk.map fun k =>
    (List.zipWith (fun prow t => if t ∈ prow.take k then (1:ℚ) else 0) pred target).sum
      * 100 / target.length

theorem topkIdx_nodup {α : Type} [LinearOrder α] [Zero α] (k : ℕ) (row : List α) :
    (topkIdx k row).Nodup := by
  have hperm := List.perm_insertionSort
    (fun i j => row.getD j 0 < row.getD i 0 ∨ (row.getD i 0 = row.getD j 0 ∧ i ≤ j))
    (List.range row.length)
  exact List.Sublist.nodup (List.take_sublist _ _)
    (hperm.nodup_iff.mpr (List.nodup_range _))

theorem topkIdx_mem_lt {α : Type} [LinearOrder α] [Zero α] {k : ℕ} {row : List α}
    {i : ℕ} (h : i ∈ topkIdx k row) : i < row.length := by
  have h1 : i ∈ (List.range row.length).insertionSort
      (fun i j => row.getD j 0 < row.getD i 0 ∨ (row.getD i 0 = row.getD j 0 ∧ i ≤ j)) :=
    List.mem_of_mem_take h
  rw [List.mem_insertionSort] at h1
  exact List.mem_range.mp h1

theorem mem_zipWith_elim {α β γ : Type} {f : α → β → γ} :
    ∀ {l1 : List α} {l2 : List β} {x : γ}, x ∈ List.zipWith f l1 l2 →
      ∃ a ∈ l1, ∃ b ∈ l2, x = f a b := by
  intro l1
  induction l1 with
  | nil => intro l2 x h; simp at h
  | cons a l ih =>
    intro l2 x h
    cases l2 with
    | nil => simp at h
    | cons b l2t =>
      simp only [List.zipWith] at h
      rcases List.mem_cons.mp h with h | h
      · exact ⟨a, List.mem_cons_self a l, b, List.mem_cons_self b l2t, h⟩
      · obtain ⟨a1, ha1, b1, hb1, hx⟩ := ih h
        exact ⟨a1, List.mem_cons_of_mem _ ha1, b1, List.mem_cons_of_mem _ hb1, hx⟩

theorem zipWith_congr_mem {α β γ : Type} {f g : α → β → γ} :
    ∀ (l1 : List α) (l2 : List β), (∀ a ∈ l1, ∀ b ∈ l2, f a b = g a b) →
      List.zipWith f l1 l2 = List.zipWith g l1 l2 := by
  intro l1
  induction l1 with
  | nil => intro l2 _; simp
  | cons a l ih =>
    intro l2 h
    cases l2 with
    | nil => simp
    | cons b l2t =>
      simp only [List.zipWith]
      refine congrArg₂ _ (h a (List.mem_cons_self a l) b (List.mem_cons_self b l2t)) ?_
      exact ih l2t fun a1 ha1 b1 hb1 =>
        h a1 (List.mem_cons_of_mem _ ha1) b1 (List.mem_cons_of_mem _ hb1)

/-- Rank-wise compositions of distinct verb indices with noun indices below
1000 are pairwise distinct. -/
theorem composed_pred_nodup :
    ∀ (va na : List ℕ), va.Nodup → (∀ nn ∈ na, nn < 1000) →
      (List.zipWith (fun v n => v * 1000 + n) va na).Nodup := by
  intro va
  induction va with
  | nil => intro na _ _; simp
  | cons v vs ih =>
    intro na hv hn
    cases na with
    | nil => simp
    | cons n ns =>
      simp only [List.zipWith]
      rw [List.nodup_cons]
      refine ⟨?_, ih ns (List.nodup_cons.mp hv).2
        (fun nn hnn => hn nn (List.mem_cons_of_mem _ hnn))⟩
      intro hmem
      obtain ⟨v1, hv1, n1, hn1, heq⟩ := mem_zipWith_elim hmem
      have hb1 : n < 1000 := hn n (List.mem_cons_self n ns)
      have hb2 : n1 < 1000 := hn n1 (List.mem_cons_of_mem _ hn1)
      have hveq : v = v1 := by omega
      exact (List.nodup_cons.mp hv).1 (hveq ▸ hv1)

theorem count_of_nodup {l : List ℕ} (hl : l.Nodup) (t : ℕ) :
    l.count t = if t ∈ l then 1 else 0 := by
  by_cases h : t ∈ l
  · simp only [h, if_true]
    exact Nat.le_antisymm (List.nodup_iff_count_le_one.mp hl t)
      (Nat.succ_le_of_lt (List.count_pos_iff.mpr h))
  · simp [List.count_eq_zero.mpr h, h]

/-- C1 amended: `action_accuracy` equals the rank-wise evaluator — the
fraction (times 100) of rows whose target equals `verb_top[j]*1000 +
noun_top[j]` for some rank `j < k` — whenever every noun-logit row has
width at most 1000 (so that rank-wise compositions within a row are
pairwise distinct and each row contributes at most one match). -/
theorem action_accuracy_eq_rankwise {α : Type} [LinearOrder α] [Zero α]
    (output_noun output_verb : List (List α)) (target : List ℕ) (topk : List ℕ)
    (hlen : ∀ row ∈ output_noun, row.length ≤ 1000) :
    action_accuracy output_noun output_verb target topk
      = action_accuracy_rankwise output_noun output_verb target topk := by
  unfold action_accuracy action_accuracy_rankwise
  refine List.map_congr_left fun k _ => ?_
  congr 1
  congr 1
  refine congrArg List.sum (zipWith_congr_mem _ _ fun prow hprow t _ => ?_)
  obtain ⟨nrow, hnrow, vrow, _, hp⟩ := mem_zipWith_elim hprow
  have hnd : prow.Nodup := by
    rw [hp]
    refine composed_pred_nodup _ _ (topkIdx_nodup _ _) fun nn hnn => ?_
    exact lt_of_lt_of_le (topkIdx_mem_lt hnn) (hlen nrow hnrow)
  have : (prow.take k).count t = if t ∈ prow.take k then 1 else 0 :=
    count_of_nodup (List.Sublist.nodup (List.take_sublist _ _) hnd) t
  rw [this]
  split <;> simp

/-- Witness for the amended C1 at the counterexample input: all noun rows
have width at most 1000, and the code evaluator agrees with the rank-wise
evaluator there. -/
theorem action_accuracy_eq_rankwise_witness :
    (∀ row ∈ [[(10:ℤ), 5]], row.length ≤ 1000)
    ∧ action_accuracy [[(10:ℤ), 5]] [[(5:ℤ), 10]] [1001] [1, 5]
        = action_accuracy_rankwise [[(10:ℤ), 5]] [[(5:ℤ), 10]] [1001] [1, 5] :=
  ⟨by decide, action_accuracy_eq_rankwise _ _ _ _ (by decide)⟩

/-! ## C2: the composed-action decoder of `final_test`

Source (engine_for_both_prompt.py lines 310-322).  When the noun-logit
width differs from `len(nounlist)` (the per-verb-scoped composed noun-logit
space produced by `nounFeature.view(batch_size, -1, 512)`):

```
_, pred_actions = noun_logits.topk(1,1,True,True)
pred_nouns = pred_actions % 300
verb_target = (pred_actions // 300)
pred_verbs = pred_verb[torch.arange(pred_verb.size(0)), verb_target.squeeze(1)].unsqueeze(1)
pred_actions = (pred_verbs * 300) + pred_nouns
correct_actions = pred_actions.eq(target[:,2].reshape(-1, 1).expand_as(pred_actions))
acc1_action = correct_actions.reshape(-1).float().sum(0) * 100. / batch_size
```

`pred_verb` is the `[B,1]` top-1 verb index matrix; the advanced indexing
`pred_verb[arange(B), verb_target]` is modelled by a fallible per-row
lookup (it raises if `verb_target` exceeds the row width). -/

/-- Top-1 index of a logit row (`tensor.topk(1, ...)` index). -/
def topk1_idx {α : Type} [LinearOrder α] [Zero α] (row : List α) : ℕ :=
  (topkIdx 1 row).headD 0

/-- The composed-action decoder: per-row top-1 index into the composed
noun-logit row, `% 300` for the noun, `// 300` for the verb bucket, lookup
of the verb prediction at that bucket, recomposition `* 300 +`. -/
def final_test_decode {α : Type} [LinearOrder α] [Zero α]
    (noun_logits : List (List α)) (pred_verb : List (List ℕ)) : Option (List ℕ) :=
  let pred_actions := noun_logits.map topk1_idx
  let pred_nouns := pred_actions.map fun p => p % 300
  let verb_target := pred_actions.map fun p => p / 300
  let lookups := List.zipWith (fun (row : List ℕ) c => row.get? c) pred_verb verb_target
  if lookups.all Option.isSome then
    some (List.zipWith (fun (pv : Option ℕ) n => pv.getD 0 * 300 + n) lookups pred_nouns)
  else none

/-- The top-1 action accuracy computed from the decoded composed actions
against the dataset action-id column `target[:,2]`. -/
def final_test_acc1_action {α : Type} [LinearOrder α] [Zero α]
    (noun_logits : List (List α)) (pred_verb : List (List ℕ))
    (action_targets : List ℕ) : Option ℚ :=
  (final_test_decode noun_logits pred_verb).map fun pa =>
    (List.zipWith (fun p t => if p = t then (1:ℚ) else 0) pa action_targets).sum * 100
      / action_targets.length

/-- Structural core for C2: when every per-row verb-bucket lookup is in
range, the decoder succeeds and produces exactly the rank-by-rank
recomposition. -/
theorem final_test_decode_aux {α : Type} [LinearOrder α] [Zero α] :
    ∀ (ns : List (List α)) (vs : List (List ℕ)),
      (∀ i, i < ns.length → i < vs.length →
        topk1_idx (ns.getD i []) / 300 < (vs.getD i []).length) →
      (List.zipWith (fun (row : List ℕ) c => row.get? c) vs
          ((ns.map topk1_idx).map fun p => p / 300)).all Option.isSome = true
      ∧ List.zipWith (fun (pv : Option ℕ) n => pv.getD 0 * 300 + n)
          (List.zipWith (fun (row : List ℕ) c => row.get? c) vs
            ((ns.map topk1_idx).map fun p => p / 300))
          ((ns.map topk1_idx).map fun p => p % 300)
        = List.zipWith (fun nrow vrow =>
            vrow.getD (topk1_idx nrow / 300) 0 * 300 + topk1_idx nrow % 300) ns vs := by
  intro ns
  induction ns with
  | nil => intro vs _; cases vs <;> simp
  | cons nrow nst ih =>
    intro vs h
    cases vs with
    | nil => simp
    | cons vrow vst =>
      have h0 : topk1_idx nrow / 300 < vrow.length := by
        have := h 0 (by simp) (by simp)
        simpa using this
      have hhead : vrow.get? (topk1_idx nrow / 300) = some (vrow.getD (topk1_idx nrow / 300) 0) := by
        rw [List.getD_eq_getElem?_getD, List.get?_eq_getElem?, List.getElem?_eq_getElem h0]
        rfl
      have ht := ih vst fun i hi1 hi2 => by
        have := h (i + 1) (by simpa using hi1) (by simpa using hi2)
        simpa using this
      refine ⟨?_, ?_⟩
      · simp only [List.map, List.zipWith, List.all_cons, hhead, Option.isSome_some,
          Bool.true_and]
        exact ht.1
      · simp only [List.map, List.zipWith]
        rw [ht.2, hhead]
        rfl

/-- C2: whenever every verb-bucket lookup is in range (as it is in the
pipeline, where the composed noun-logit row has width 300 and the bucket is
0), the decoder of the composed branch succeeds and computes, per example,
`pred_verb[i][topk1(row_i) / 300] * 300 + topk1(row_i) % 300`, and the
reported top-1 action accuracy compares exactly these recomposed ids with
the action targets. -/
theorem final_test_composed_decode {α : Type} [LinearOrder α] [Zero α]
    (noun_logits : List (List α)) (pred_verb : List (List ℕ)) (action_targets : List ℕ)
    (hin : ∀ i, i < noun_logits.length → i < pred_verb.length →
      topk1_idx (noun_logits.getD i []) / 300 < (pred_verb.getD i []).length) :
    final_test_decode noun_logits pred_verb
      = some (List.zipWith (fun nrow vrow =>
          vrow.getD (topk1_idx nrow / 300) 0 * 300 + topk1_idx nrow % 300)
          noun_logits pred_verb)
    ∧ final_test_acc1_action noun_logits pred_verb action_targets
      = some ((List.zipWith (fun p t => if p = t then (1:ℚ) else 0)
          (List.zipWith (fun nrow vrow =>
            vrow.getD (topk1_idx nrow / 300) 0 * 300 + topk1_idx nrow % 300)
            noun_logits pred_verb)
          action_targets).sum * 100 / action_targets.length) := by
  have haux := final_test_decode_aux noun_logits pred_verb hin
  have hdec : final_test_decode noun_logits pred_verb
      = some (List.zipWith (fun nrow vrow =>
          vrow.getD (topk1_idx nrow / 300) 0 * 300 + topk1_idx nrow % 300)
          noun_logits pred_verb) := by
    unfold final_test_decode
    rw [if_pos haux.1, haux.2]
  exact ⟨hdec, by unfold final_test_acc1_action; rw [hdec]; rfl⟩

/-- Witness for C2 at a concrete input: one composed noun-logit row
`[1, 5, 3]` (top-1 index 1), verb top-1 matrix `[[7]]`; the decoder yields
`7 * 300 + 1 = 2101` and, against action target 2101, 100% accuracy. -/
theorem final_test_composed_decode_witness :
    (∀ i, i < ([[(1:ℤ), 5, 3]] : List (List ℤ)).length → i < ([[7]] : List (List ℕ)).length →
      topk1_idx (([[(1:ℤ), 5, 3]] : List (List ℤ)).getD i []) / 300
        < (([[7]] : List (List ℕ)).getD i []).length)
    ∧ final_test_decode [[(1:ℤ), 5, 3]] [[7]] = some [2101] := by
  refine ⟨by decide, ?_⟩
  have h := (final_test_composed_decode [[(1:ℤ), 5, 3]] [[7]] [2101] (by decide)).1
  rw [h]
  decide

/-! ## C3: batched per-verb noun-prototype construction

Source (engine_for_both_prompt.py lines 19-24 in
`composition_train_class_batch`, and lines 223-229 in
`validation_one_epoch` / lines 289-295 in `final_test` with the top-1 verb
predictions in place of the targets):

```
uniqverb, verb_targets = torch.unique(target_verb, sorted=True, return_inverse=True)
action_list = []
for verb in uniqverb:
    action_list += actionlist[verb*300 : (verb+1)*300]
nounFeature = model.text_encoder(action_list, opt='action')
nounFeature = nounFeature.view(-1, 300, 512)[verb_targets]
```

The text encoder is an abstract deterministic per-name embedding function
`embed`.  `view(-1, 300, 512)[j]` extracts rows `j*300 .. j*300+299` of the
flat embedding matrix. -/

/-- `torch.unique(v, sorted=True)`: the distinct values in ascending order. -/
def torch_unique_sorted (verbs : List ℕ) : List ℕ :=
  (verbs.dedup).insertionSort (· ≤ ·)

/-- The `return_inverse=True` index vector: for each input verb, its
position in the sorted unique list. -/
def unique_inverse (verbs : List ℕ) : List ℕ :=
  verbs.map fun v => (torch_unique_sorted verbs).indexOf v

/-- The 300-action slice `actionlist[v*300 : (v+1)*300]`. -/
def action_slice {α : Type} (actionlist : List α) (v : ℕ) : List α :=
  (actionlist.drop (v * 300)).take 300

/-- The concatenated `action_list` built over the sorted unique verbs; its
length is the number of text-encoder invocations. -/
def batched_action_list {α : Type} (actionlist : List α) (verbs : List ℕ) : List α :=
  (torch_unique_sorted verbs).flatMap (action_slice actionlist)

/-- Row block `i` of `text_encoder(action_list).view(-1, 300, 512)[verb_targets]`:
the 300 embedding rows selected for example `i` by the unique-inverse index. -/
def batched_noun_feature {α β : Type} (embed : α → β) (actionlist : List α)
    (verbs : List ℕ) (i : ℕ) : List β :=
  let flat := (batched_action_list actionlist verbs).map embed
  (flat.drop ((unique_inverse verbs).getD i 0 * 300)).take 300

/-- The reference computation: embed the 300-action slice of example `i`'s
verb directly. -/
def direct_noun_feature {α β : Type} (embed : α → β) (actionlist : List α) (v : ℕ) :
    List β :=
  (action_slice actionlist v).map embed

theorem mem_torch_unique_sorted {verbs : List ℕ} {v : ℕ} :
    v ∈ torch_unique_sorted verbs ↔ v ∈ verbs := by
  unfold torch_unique_sorted
  rw [List.mem_insertionSort, List.mem_dedup]

/-- Extracting 300 rows at offset `j*300` from a concatenation of
300-row blocks yields block `j`. -/
theorem flatten_block_extract {β : Type} :
    ∀ (L : List (List β)) (j : ℕ), (∀ l ∈ L, l.length = 300) → j < L.length →
      ((L.flatten).drop (j * 300)).take 300 = L.getD j [] := by
  intro L
  induction L with
  | nil => intro j _ hj; simp at hj
  | cons l Lt ih =>
    intro j hl hj
    have h300 : l.length = 300 := hl l (List.mem_cons_self l Lt)
    cases j with
    | zero =>
      simp only [Nat.zero_mul, List.drop_zero, List.flatten_cons, List.getD]
      rw [← h300, List.take_left l Lt.flatten]
      simp
    | succ n =>
      have hstep : (n + 1) * 300 = l.length + n * 300 := by omega
      simp only [List.flatten_cons, hstep, List.drop_append]
      exact ih n (fun l1 hl1 => hl l1 (List.mem_cons_of_mem _ hl1)) (by simpa using hj)

theorem action_slice_length {α : Type} {actionlist : List α} {v : ℕ}
    (h : v * 300 + 300 ≤ actionlist.length) : (action_slice actionlist v).length = 300 := by
  unfold action_slice
  rw [List.length_take, List.length_drop]
  omega

/-- C3: under the (always satisfied in the pipeline) bound that each verb's
300-action slice lies inside `actionlist`, the batched unique-verb
construction selects, for every example `i`, exactly the embedding of that
example's own 300-action slice, and the text encoder is invoked on
`300 * (number of distinct verbs)` names — embeddings are never recomputed
for repeated verbs. -/
theorem composition_prototype_batching {α β : Type} (embed : α → β)
    (actionlist : List α) (verbs : List ℕ)
    (hbound : ∀ v ∈ verbs, v * 300 + 300 ≤ actionlist.length) :
    (∀ i, i < verbs.length →
      batched_noun_feature embed actionlist verbs i
        = direct_noun_feature embed actionlist (verbs.getD i 0))
    ∧ (batched_action_list actionlist verbs).length
        = 300 * (torch_unique_sorted verbs).length := by
  have hblock : ∀ v ∈ torch_unique_sorted verbs, (action_slice actionlist v).length = 300 :=
    fun v hv => action_slice_length (hbound v (mem_torch_unique_sorted.mp hv))
  constructor
  · intro i hi
    set vi := verbs.getD i 0 with hvi_def
    have hvi : vi ∈ verbs := by
      rw [hvi_def, List.getD_eq_getElem verbs 0 hi]
      exact List.getElem_mem hi
    have hviu : vi ∈ torch_unique_sorted verbs := mem_torch_unique_sorted.mpr hvi
    have hjlt : (torch_unique_sorted verbs).indexOf vi < (torch_unique_sorted verbs).length :=
      List.indexOf_lt_length.mpr hviu
    have hidx : (unique_inverse verbs).getD i 0 = (torch_unique_sorted verbs).indexOf vi := by
      unfold unique_inverse
      rw [List.getD_eq_getElem _ 0 (by simpa using hi), List.getElem_map,
        ← List.getD_eq_getElem verbs 0 hi]
    have hmap : (batched_action_list actionlist verbs).map embed
        = ((torch_unique_sorted verbs).map fun v =>
            (action_slice actionlist v).map embed).flatten := by
      unfold batched_action_list
      rw [List.map_flatMap]
      rfl
    have hLlen : ∀ l ∈ (torch_unique_sorted verbs).map fun v =>
        (action_slice actionlist v).map embed, l.length = 300 := by
      intro l hl
      obtain ⟨v, hv, rfl⟩ := List.mem_map.mp hl
      rw [List.length_map]
      exact hblock v hv
    have hjlt2 : (torch_unique_sorted verbs).indexOf vi
        < ((torch_unique_sorted verbs).map fun v =>
            (action_slice actionlist v).map embed).length := by
      rw [List.length_map]; exact hjlt
    unfold batched_noun_feature
    rw [hidx, hmap, flatten_block_extract _ _ hLlen hjlt2,
      List.getD_eq_getElem _ [] hjlt2, List.getElem_map,
      ← List.getD_eq_getElem _ 0 hjlt, List.getD_eq_get _ 0 hjlt, List.indexOf_get]
    rfl
  · have hmap2 : batched_action_list actionlist verbs
        = ((torch_unique_sorted verbs).map (action_slice actionlist)).flatten := rfl
    rw [hmap2, List.length_flatten, List.map_map]
    have : ((torch_unique_sorted verbs).map (List.length ∘ action_slice actionlist))
        = (torch_unique_sorted verbs).map fun _ => 300 :=
      List.map_congr_left fun v hv => hblock v hv
    rw [this]
    simp [List.map_const', List.sum_replicate, smul_eq_mul, Nat.mul_comm]

set_option maxRecDepth 4000 in
/-- Witness for C3: a 600-name action list, verbs `[1, 0, 1]` (verb 1
repeated), the identity embedding; the batch issues 600 = 300 * 2
embedding calls and example 2 receives verb 1's own slice. -/
theorem composition_prototype_batching_witness :
    (∀ v ∈ ([1, 0, 1] : List ℕ), v * 300 + 300 ≤ (List.range 600).length)
    ∧ (batched_action_list (List.range 600) [1, 0, 1]).length
        = 300 * (torch_unique_sorted [1, 0, 1]).length
    ∧ (2 < ([1, 0, 1] : List ℕ).length
       ∧ batched_noun_feature id (List.range 600) [1, 0, 1] 2
         = direct_noun_feature id (List.range 600) (([1, 0, 1] : List ℕ).getD 2 0)) :=
  ⟨by decide, (composition_prototype_batching id _ _ (by decide)).2,
   by decide, (composition_prototype_batching id _ _ (by decide)).1 2 (by decide)⟩

/-! ## C5: B-CAST cells preserve input shapes

Sources: beats_Bsquare.py `B_CAST.forward` (lines 641-648) — down-project
both streams to `dim // down_ratio`, layer-norm, run both directed
cross-attentions, up-project, residually add — with its `type='s-t'`
attentions `CrossAttentionS2T.s2t_cross_attn` (lines 523-549) and
`CrossAttentionT2S.t2s_cross_attn` (lines 577-604); and the inline cell of
audio_cast.py `Block.forward` (lines 520-527) with
`CrossAttentionT2S.t2s_cross_attn` (lines 350-417) and
`CrossAttentionS2T.s2t_cross_attn` (lines 227-289) in their
`attn_all_frame=True`, `time_encoding=False`, `use_stpos=True`
configuration.

Tensors are modelled by their shapes `(axis0, axis1, axis2)`; each einops
`rearrange` contributes its exact-division requirement, each positional
bias addition its broadcast requirement, the attention `q @ k^T` its
batch-agreement requirement, and each residual `+` the torch broadcast
rule.  Shape functions return `none` when a requirement fails, mirroring
the runtime errors. -/

abbrev Shape3 : Type := ℕ × ℕ × ℕ

/-- Torch broadcast rule for one axis: equal sizes, or one of them 1. -/
def bcDim (a b : ℕ) : Option ℕ :=
  if a = b then some a else if a = 1 then some b else if b = 1 then some a else none

/-- Torch broadcast of two same-rank shapes (used for the residual add). -/
def broadcast3 (x y : Shape3) : Option Shape3 :=
  match x, y with
  | (a1, a2, a3), (b1, b2, b3) =>
    match bcDim a1 b1, bcDim a2 b2, bcDim a3 b3 with
    | some c1, some c2, some c3 => some (c1, c2, c3)
    | _, _, _ => none

theorem broadcast3_self (x : Shape3) : broadcast3 x x = some x := by
  obtain ⟨a1, a2, a3⟩ := x
  simp [broadcast3, bcDim]

/-- beats `CrossAttentionS2T.s2t_cross_attn` on shapes: `s_x = (n, bt, d)`,
`t_x = (B, M, d)`; `t = bt // B`; `s_x[1:]` gets `clip_space_pos` (196
rows); `t_x` is split `b (t n) -> (b t) n` and gets `vmae_space_pos` (196
rows); queries from `t_x` (batch `B*t`), keys/values from the patch rows
(batch `bt`); output re-merged `(b t) n -> b (t n)`. -/
def beats_s2t_shape (s t : Shape3) : Option Shape3 :=
  match s, t with
  | (n, bt, d), (B, M, d2) =>
    let tf := bt / B
    if 1 ≤ n ∧ n - 1 = 196 ∧ 0 < tf ∧ tf ∣ M ∧ M / tf = 196 ∧ B * tf = bt ∧ d2 = d
    then some (B, tf * (M / tf), d)
    else none

/-- beats `CrossAttentionT2S.t2s_cross_attn` on shapes: the class row is
split off, patches are regrouped `n (b t) -> (b n) t` and get
`clip_time_pos` (`num_frames//2` rows), `t_x` is regrouped
`b (t n) -> (b n) t` and gets `vmae_time_pos`; queries from the patch rows
(batch `B*(n-1)`), keys/values from `t_x` (batch `B*(M/t)`); the output is
regrouped back and the class row concatenated. -/
def beats_t2s_shape (F2 : ℕ) (s t : Shape3) : Option Shape3 :=
  match s, t with
  | (n, bt, d), (B, M, d2) =>
    let tf := bt / B
    if 1 ≤ n ∧ B * tf = bt ∧ tf = F2 ∧ 0 < tf ∧ tf ∣ M ∧ n - 1 = M / tf ∧ d2 = d
    then some ((n - 1) + 1, B * tf, d)
    else none

/-- beats `B_CAST.forward`, `type='s-t'`: down-projection of both streams
to `dim // down_ratio` + layer-norm, both directed cross-attentions,
up-projection back to `dim`, residual (broadcast) add onto the inputs. -/
def b_cast_st_shape (dim down_ratio F2 : ℕ) (l r : Shape3) : Option (Shape3 × Shape3) :=
  match l, r with
  | (nl, bl, dl), (nr, br, dr) =>
    if dl = dim ∧ dr = dim then
      let dd := dim / down_ratio
      match beats_t2s_shape F2 (nl, bl, dd) (nr, br, dd),
            beats_s2t_shape (nl, bl, dd) (nr, br, dd) with
      | some cl, some cr =>
        match broadcast3 (nl, bl, dl) (cl.1, cl.2.1, dim),
              broadcast3 (nr, br, dr) (cr.1, cr.2.1, dim) with
        | some ol, some orr => some (ol, orr)
        | _, _ => none
      | _, _ => none
    else none

/-- audio_cast `CrossAttentionT2S.t2s_cross_attn` on shapes
(`attn_all_frame=True`): `s_x[1:]` is split `n (b t) -> b t n` with
`t = spec_frames` and gets `clip_space_pos` (`audio_patch` rows) and
`clip_temporal_pos`; `t_x` is split `b (t n) -> b t n` with
`t = num_frames//2` and gets `vmae_space_pos` (`video_patch` rows) and
`vmae_temporal_pos`; queries from the patch rows (batch `bt/ts`),
keys/values from `t_x` (batch `B`); output `b (n t) -> n (b t)`, class row
concatenated back. -/
def ac_t2s_shape (ts T AP VP : ℕ) (s t : Shape3) : Option Shape3 :=
  match s, t with
  | (n, bt, d), (B, M, d2) =>
    if 1 ≤ n ∧ 0 < ts ∧ ts ∣ bt ∧ n - 1 = AP
      ∧ 0 < T ∧ T ∣ M ∧ M / T = VP ∧ bt / ts = B ∧ d2 = d
    then some ((((n - 1) * ts) / ts) + 1, (bt / ts) * ts, d)
    else none

/-- audio_cast `CrossAttentionS2T.s2t_cross_attn` on shapes
(`attn_all_frame=True`): same positional pipelines; queries from `t_x`,
keys/values from the patch rows; output regrouped `b (n t) -> b (t n)`. -/
def ac_s2t_shape (ts T AP VP : ℕ) (s t : Shape3) : Option Shape3 :=
  match s, t with
  | (n, bt, d), (B, M, d2) =>
    if 1 ≤ n ∧ 0 < ts ∧ ts ∣ bt ∧ n - 1 = AP
      ∧ 0 < T ∧ T ∣ M ∧ M / T = VP ∧ bt / ts = B ∧ d2 = d
    then some (B, (M / T) * T / T * T, d)
    else none

/-- The inline cross-modal cell of audio_cast `Block.forward` (lines
520-527): `cross_s_down` / `cross_t_down` to `dim // down_ratio` +
layer-norms, both directed cross-attentions, `cross_s_up` / `cross_t_up`
back to `dim`, residual (broadcast) add with stochastic depth on the
delta. -/
def ac_cell_shape (dim down_ratio ts T AP VP1 VP2 : ℕ) (s t : Shape3) :
    Option (Shape3 × Shape3) :=
  match s, t with
  | (ns, bs, ds), (nt, mt, dt) =>
    if ds = dim ∧ dt = dim then
      let dd := dim / down_ratio
      match ac_t2s_shape ts T AP VP1 (ns, bs, dd) (nt, mt, dd),
            ac_s2t_shape ts T AP VP2 (ns, bs, dd) (nt, mt, dd) with
      | some cs, some ct =>
        match broadcast3 (ns, bs, ds) (cs.1, cs.2.1, dim),
              broadcast3 (nt, mt, dt) (ct.1, ct.2.1, dim) with
        | some os, some ot => some (os, ot)
        | _, _ => none
      | _, _ => none
    else none

/-- C5: on every valid input shape pair — the divisibility, positional
broadcast and attention-batch requirements of the reshape pipeline — both
the beats `s-t` B-CAST cell and the audio_cast inline cell return outputs
whose shapes exactly equal the corresponding input shapes. -/
theorem b_cast_shape_preserving
    (dim ratio F2 n bt B M ts T AP VP1 VP2 : ℕ)
    (hn : 1 ≤ n) (hn196 : n - 1 = 196)
    (hBdvd : B * (bt / B) = bt) (hF2 : bt / B = F2) (htfpos : 0 < bt / B)
    (htfM : (bt / B) ∣ M) (hM196 : M / (bt / B) = 196)
    (hts : 0 < ts) (htsbt : ts ∣ bt) (hAP : n - 1 = AP) (hB : bt / ts = B)
    (hT : 0 < T) (hTM : T ∣ M) (hVP1 : M / T = VP1) (hVP2 : M / T = VP2) :
    b_cast_st_shape dim ratio F2 (n, bt, dim) (B, M, dim)
      = some ((n, bt, dim), (B, M, dim))
    ∧ ac_cell_shape dim ratio ts T AP VP1 VP2 (n, bt, dim) (B, M, dim)
      = some ((n, bt, dim), (B, M, dim)) := by
  have hsub : n - 1 + 1 = n := by omega
  have hMtf : (bt / B) * (M / (bt / B)) = M := Nat.mul_div_cancel' htfM
  have hTMeq : M / T * T = M := Nat.div_mul_cancel hTM
  have hbtts : bt / ts * ts = bt := Nat.div_mul_cancel htsbt
  constructor
  · unfold b_cast_st_shape beats_t2s_shape beats_s2t_shape
    dsimp only
    rw [if_pos ⟨rfl, rfl⟩]
    rw [if_pos ⟨hn, hBdvd, hF2, htfpos, htfM, by omega, rfl⟩,
      if_pos ⟨hn, hn196, htfpos, htfM, hM196, hBdvd, rfl⟩]
    simp only [hsub, hBdvd, hMtf, broadcast3_self]
  · unfold ac_cell_shape ac_t2s_shape ac_s2t_shape
    dsimp only
    rw [if_pos ⟨rfl, rfl⟩]
    rw [if_pos ⟨hn, hts, htsbt, hAP, hT, hTM, hVP1, hB, rfl⟩,
      if_pos ⟨hn, hts, htsbt, hAP, hT, hTM, hVP2, hB, rfl⟩]
    have h1 : (n - 1) * ts / ts = n - 1 := Nat.mul_div_cancel _ hts
    have h2 : M / T * T / T = M / T := Nat.mul_div_cancel _ hT
    simp only [h1, hsub, hbtts, h2, hTMeq, broadcast3_self]

/-- Witness for C5 at the concrete configuration: 2 videos of 16 frames
(8 tubelets), a 196-patch grid (197 spatial rows with the class token,
batch axis 2*8), temporal stream (2, 1568, 768), spec_frames 8. -/
theorem b_cast_shape_preserving_witness :
    b_cast_st_shape 768 2 8 (197, 16, 768) (2, 1568, 768)
      = some ((197, 16, 768), (2, 1568, 768))
    ∧ ac_cell_shape 768 2 8 8 196 196 196 (197, 16, 768) (2, 1568, 768)
      = some ((197, 16, 768), (2, 1568, 768)) :=
  b_cast_shape_preserving 768 2 8 197 16 2 1568 8 8 196 196 196
    (by decide) (by decide) (by decide) (by decide) (by decide) (by decide)
    (by decide) (by decide) (by decide) (by decide) (by decide) (by decide)
    (by decide) (by decide) (by decide)
